import Mathlib

/-!
# Verification of the quiz-srs developer-tooling scripts

Shallow embedding of the Python scripts of the quiz-srs repository:

* `scripts/batch-quiz-update.py` — splits the quiz document into batch files
  of `BATCH_SIZE = 3` questions;
* `scripts/merge-batches.py` — merges processed batch records back into the
  quiz document, validating indices and `questionId`;
* `scripts/deep-codebase-analyzer.py` — import resolution, dependency-graph
  construction, cycle detection, duplicate detection and dead-code
  classification.

Python `list` values are embedded as `List`, Python `set` values as
duplicate-free lists (insertion keeps membership semantics), Python `dict`
values as association lists in insertion order, Python integers as `Int`
(with Python's negative-index semantics made explicit where lists are
indexed), and code that can raise as `Except String`.
-/

/-! ## Data model of the quiz JSON document

Schema used by both batch scripts:
`{ chapters: [ { questions: [ { questionId, questionText,
   options: [ { optionId, ... } ], correctOptionIds, explanationText } ] } ] }`.
-/

structure QOption where
  optionId : String
  optionText : String
deriving DecidableEq

structure Question where
  questionId : String
  questionText : String
  options : List QOption
  correctOptionIds : List String
  explanationText : String
deriving DecidableEq

structure Chapter where
  questions : List Question
deriving DecidableEq

structure Quiz where
  chapters : List Chapter
deriving DecidableEq

/-- One entry of a batch file's `questions` list, as written by
`batch-quiz-update.py` (the per-question dict holding `chapterIndex`,
`questionIndex`, `questionId`, `questionText`, `options`,
`correctOptionIds`, `explanationText`).  The indices are embedded as `Int`
because `merge-batches.py` reads them back from JSON, where they are
arbitrary integers. -/
structure BatchRecord where
  chapterIndex : Int
  questionIndex : Int
  questionId : String
  questionText : String
  options : List QOption
  correctOptionIds : List String
  explanationText : String
deriving DecidableEq

/-- The record `batch-quiz-update.py` builds for the question at
chapter index `ci`, question index `qi`. -/
def mkRecord (ci qi : Nat) (q : Question) : BatchRecord :=
  { chapterIndex := (ci : Int)
    questionIndex := (qi : Int)
    questionId := q.questionId
    questionText := q.questionText
    options := q.options
    correctOptionIds := q.correctOptionIds
    explanationText := q.explanationText }

/-- Records of one chapter's questions, with running question index `qi`
(the inner `enumerate` of the collection loop). -/
def recordsOfChapter (ci : Nat) : Nat → List Question → List BatchRecord
  | _, [] => []
  | qi, q :: qs => mkRecord ci qi q :: recordsOfChapter ci (qi + 1) qs

/-- The outer `enumerate` over chapters, with running chapter index `ci`. -/
def allQuestionsFrom : Nat → List Chapter → List BatchRecord
  | _, [] => []
  | ci, ch :: chs => recordsOfChapter ci 0 ch.questions ++ allQuestionsFrom (ci + 1) chs

/-- `all_questions` of `batch-quiz-update.py`: every question of the quiz
together with its chapter and question index, in document order. -/
def all_questions (quiz : Quiz) : List BatchRecord :=
  allQuestionsFrom 0 quiz.chapters

/-- `BATCH_SIZE` of `batch-quiz-update.py`. -/
def BATCH_SIZE : Nat := 3

/-- The slicing step of the batching loop, made structurally recursive on
a fuel that bounds the number of slices (each of the at most `l.length`
iterations consumes one unit, so the `0`-fuel case with a nonempty list
is never reached from `make_batches`). -/
def makeBatchesFuel : Nat → List BatchRecord → List (List BatchRecord)
  | _, [] => []
  | 0, _ :: _ => []
  | fuel + 1, x :: xs =>
    (x :: xs).take BATCH_SIZE :: makeBatchesFuel fuel ((x :: xs).drop BATCH_SIZE)

/-- The batching loop `for i in range(0, len(all_questions), BATCH_SIZE):
batches.append(all_questions[i:i + BATCH_SIZE])`. -/
def make_batches (l : List BatchRecord) : List (List BatchRecord) :=
  makeBatchesFuel l.length l

/-- One batch file's content (`batch_data`). -/
structure BatchData where
  batchIndex : Nat
  questions : List BatchRecord
deriving DecidableEq

/-- The batch-file writing loop: batch `batch_index` gets the records of
`batches[batch_index]`. -/
def batchDatas (quiz : Quiz) : List BatchData :=
  (make_batches (all_questions quiz)).enum.map
    (fun b => { batchIndex := b.1, questions := b.2 })

/-! ## The merge script, `merge-batches.py` -/

/-- Python list indexing `l[i]`: a non-negative index is used directly, a
negative index counts from the end, and anything else raises `IndexError`
(modelled as `none`). -/
def pyGet (l : List α) (i : Int) : Option α :=
  if 0 ≤ i then l.get? i.toNat
  else if 0 ≤ i + l.length then l.get? (i + l.length).toNat
  else none

/-- In-place mutation of `l[i]` (Python assignment through an alias of the
list element), with the same index semantics as `pyGet`; out-of-range
indices leave the list unchanged (the merge only reaches this after a
successful `pyGet`). -/
def pyModify (l : List α) (i : Int) (f : α → α) : List α :=
  if 0 ≤ i then
    match l.get? i.toNat with
    | some a => l.set i.toNat (f a)
    | none => l
  else if 0 ≤ i + l.length then
    match l.get? (i + l.length).toNat with
    | some a => l.set (i + l.length).toNat (f a)
    | none => l
  else l

/-- Running state of the merge loop: the quiz document being mutated, the
`updated_count`, and the messages printed for skipped records. -/
structure MergeState where
  quiz : Quiz
  updated : Nat
  logs : List String
deriving DecidableEq

/-- The body of `for pq in batch['questions']` in `merge-batches.py`:
check `chapter_index` against the chapter count, index the chapter list,
check `question_index` against the chapter's question count, index the
question list, compare `questionId`, and on success replace the question's
`options` and `explanationText`.  Indexing is Python indexing: the
explicit bound checks only reject indices `≥ len`, so negative indices
reach the subscript, where they wrap around or raise `IndexError`. -/
def applyRecord (s : MergeState) (pq : BatchRecord) : Except String MergeState :=
  if pq.chapterIndex ≥ (s.quiz.chapters.length : Int) then
    .ok { s with logs := s.logs ++
      ["Chapter " ++ toString pq.chapterIndex ++ " not found"] }
  else
    match pyGet s.quiz.chapters pq.chapterIndex with
    | none => .error "IndexError: list index out of range"
    | some chapter =>
      if pq.questionIndex ≥ (chapter.questions.length : Int) then
        .ok { s with logs := s.logs ++
          ["Question " ++ toString pq.questionIndex ++ " not found in chapter "
            ++ toString pq.chapterIndex] }
      else
        match pyGet chapter.questions pq.questionIndex with
        | none => .error "IndexError: list index out of range"
        | some question =>
          if question.questionId ≠ pq.questionId then
            .ok { s with logs := s.logs ++
              ["Question ID mismatch: expected " ++ pq.questionId ++ ", got "
                ++ question.questionId] }
          else
            .ok { quiz := ⟨pyModify s.quiz.chapters pq.chapterIndex (fun ch =>
                    ⟨pyModify ch.questions pq.questionIndex (fun q =>
                      { q with options := pq.options,
                               explanationText := pq.explanationText })⟩)⟩
                  updated := s.updated + 1
                  logs := s.logs }

/-- The merge loop over a flat sequence of batch records (the batch files
are read in sorted order and their `questions` lists processed in order). -/
def mergeRecords : List BatchRecord → MergeState → Except String MergeState
  | [], s => .ok s
  | pq :: rest, s =>
    match applyRecord s pq with
    | .ok s' => mergeRecords rest s'
    | .error e => .error e

/-- Whole-pipeline run of `merge-batches.py` on exactly the batch files
that `batch-quiz-update.py` produced from `quiz`, unmodified. -/
def mergeAllBatches (quiz : Quiz) : Except String MergeState :=
  mergeRecords ((batchDatas quiz).map (fun bd => bd.questions)).flatten
    { quiz := quiz, updated := 0, logs := [] }

/-! ## Concrete quiz documents used for examples and counterexamples -/

/-- A simple question used to build concrete quizzes. -/
def mkQ (i : Nat) : Question :=
  { questionId := "Q" ++ toString i
    questionText := "T" ++ toString i
    options := [{ optionId := "a", optionText := "optA" }]
    correctOptionIds := ["a"]
    explanationText := "E" ++ toString i }

/-- A quiz with ten questions spread over two chapters. -/
def quizTen : Quiz :=
  { chapters := [{ questions := [mkQ 0, mkQ 1, mkQ 2, mkQ 3] },
                 { questions := [mkQ 4, mkQ 5, mkQ 6, mkQ 7, mkQ 8, mkQ 9] }] }

/-- A quiz with two chapters: chapter 0 holds questions `Q1`, `Q2`,
chapter 1 holds question `Q3`. -/
def quizEx : Quiz :=
  { chapters := [{ questions := [mkQ 1, mkQ 2] }, { questions := [mkQ 3] }] }

/-- A batch record with negative indices `(-1, -1)` whose `questionId`
matches the last question of the last chapter of `quizEx`. -/
def rWrap : BatchRecord :=
  { chapterIndex := -1
    questionIndex := -1
    questionId := "Q3"
    questionText := "T3"
    options := [{ optionId := "z", optionText := "optZ" }]
    correctOptionIds := ["z"]
    explanationText := "changed" }

/-- `quizEx` after `rWrap` has been applied to the question that the
Python indexing `chapters[-1].questions[-1]` designates. -/
def quizExWrapped : Quiz :=
  { chapters := [{ questions := [mkQ 1, mkQ 2] },
                 { questions := [{ mkQ 3 with
                                   options := [{ optionId := "z", optionText := "optZ" }]
                                   explanationText := "changed" }] }] }

/-- A batch record whose chapter index `-5` is below `-len`, so the
subscript `quiz.chapters[-5]` raises `IndexError`. -/
def rCrash : BatchRecord :=
  { chapterIndex := -5
    questionIndex := 0
    questionId := "Q3"
    questionText := "T3"
    options := []
    correctOptionIds := []
    explanationText := "changed" }

/-- A batch record whose chapter index 7 is beyond `quizEx`'s two
chapters, so the merge's explicit bound check skips it. -/
def rOut : BatchRecord :=
  { chapterIndex := 7
    questionIndex := 0
    questionId := "Q3"
    questionText := "T3"
    options := []
    correctOptionIds := []
    explanationText := "changed" }

/-- The per-chapter lists of `questionId`s.  `applyRecord` never changes
this shape: it only rewrites `options` and `explanationText`. -/
def quizShape (q : Quiz) : List (List String) :=
  q.chapters.map (fun ch => ch.questions.map (fun qu => qu.questionId))

/-- The records that the merge loop skips with a log message: the chapter
index fails the explicit bound check `chapter_index >= len(chapters)`, or
the chapter is found (Python indexing) but the question index fails
`question_index >= len(questions)`, or both are found but the
`questionId` differs.  This predicate depends only on `quizShape`. -/
def rejects (shape : List (List String)) (r : BatchRecord) : Prop :=
  ((shape.length : Int) ≤ r.chapterIndex) ∨
  (r.chapterIndex < (shape.length : Int) ∧
    match pyGet shape r.chapterIndex with
    | none => False
    | some ids =>
      ((ids.length : Int) ≤ r.questionIndex) ∨
      (r.questionIndex < (ids.length : Int) ∧
        match pyGet ids r.questionIndex with
        | none => False
        | some qid => qid ≠ r.questionId))

/-! ## deep-codebase-analyzer.py: path manipulation

`_resolve_import` manipulates paths with `pathlib.Path` and
`os.path.normpath`.  Paths here are POSIX-style relative paths (the
analyzer normalises `\` to `/` on collection, so no backslashes occur).
-/

/-- `s.split('/')` on the character list (character-level recursion so
that concrete paths evaluate by kernel reduction). -/
def splitOnSlashAux : List Char → List Char → List String
  | [], acc => [acc.reverse.asString]
  | c :: cs, acc =>
    if c == '/' then acc.reverse.asString :: splitOnSlashAux cs []
    else splitOnSlashAux cs (c :: acc)

/-- `s.split('/')`. -/
def splitOnSlash (s : String) : List String :=
  splitOnSlashAux s.toList []

/-- `s.startswith(pre)`. -/
def strStartsWith (s pre : String) : Bool :=
  pre.toList.isPrefixOf s.toList

/-- `s.endswith(suf)`. -/
def strEndsWith (s suf : String) : Bool :=
  suf.toList.isSuffixOf s.toList

/-- The components of a `pathlib.PurePosixPath`: splitting on `/` drops
empty and `.` components (pathlib normalises those away on parsing). -/
def pureComponents (p : String) : List String :=
  (splitOnSlash p).filter (fun c => c != "" && c != ".")

/-- `str(Path(a) / b)` for relative `b`: concatenate the parsed
components; a path with no components prints as `.`. -/
def pathJoin (a b : String) : String :=
  match pureComponents a ++ pureComponents b with
  | [] => "."
  | cs => String.intercalate "/" cs

/-- `str(Path(p).parent)`: all components but the last, or `.`. -/
def pathParent (p : String) : String :=
  match (pureComponents p).dropLast with
  | [] => "."
  | cs => String.intercalate "/" cs

/-- The component loop of `posixpath.normpath` for relative paths:
`''` and `.` are dropped, `..` pops the previous component unless there
is none or it is itself `..`. -/
def normpathAux (comps : List String) : List String :=
  comps.foldl (fun acc comp =>
    if comp = "" ∨ comp = "." then acc
    else if comp ≠ ".." then acc ++ [comp]
    else if acc = [] then acc ++ [comp]
    else if acc.getLast? = some ".." then acc ++ [comp]
    else acc.dropLast) []

/-- `os.path.normpath` on a relative POSIX path. -/
def normpath (p : String) : String :=
  match normpathAux (splitOnSlash p) with
  | [] => "."
  | cs => String.intercalate "/" cs

/-- `Path(p).name`: the last component. -/
def lastComponent (p : String) : String :=
  match (splitOnSlash p).getLast? with
  | some c => c
  | none => ""

/-- `Path(p).stem`: the name with its last suffix removed; a dot at the
start or the very end of the name is not a suffix separator. -/
def pathStem (p : String) : String :=
  let name := lastComponent p
  let cs := name.toList
  match ((cs.enum.filter (fun pr => pr.2 == '.')).map (fun pr => pr.1)).getLast? with
  | some i => if 0 < i ∧ i < cs.length - 1 then String.mk (cs.take i) else name
  | none => name

/-! ## deep-codebase-analyzer.py: files, import resolution, graphs -/

/-- The slice of a `FileAnalysis` record that the dependency graph, the
duplicate detector and the dead-code detector read.  `imports` holds the
`source` strings of the parsed `ImportInfo` records.  The per-file
bookkeeping lists `imports_files` and `imported_by` (plain lists with
duplicates, mutated alongside the graphs) are not modelled: no analysis
step reads them. -/
structure AnalyzerFile where
  relative_path : String
  imports : List String
  is_entry_point : Bool
  is_test_file : Bool
  content_hash : String
deriving DecidableEq

/-- The computation of the normalised logical path in `_resolve_import`:
strip the `@/` alias (project-root relative), treat non-relative
specifiers as external (`none`), and join relative specifiers onto the
importer's directory; surviving paths go through `normpath`. -/
def logicalPath (from_file import_source : String) : Option String :=
  if strStartsWith import_source "@/" then
    some (normpath (import_source.drop 2))
  else if !(strStartsWith import_source ".") then
    none
  else
    some (normpath (pathJoin (pathParent from_file) import_source))

/-- The candidate list of `_resolve_import` for logical path `p`:
verbatim, then the four extension suffixes, then the three index files. -/
def resolveCandidates (p : String) : List String :=
  [p, p ++ ".ts", p ++ ".tsx", p ++ ".js", p ++ ".jsx",
   p ++ "/index.ts", p ++ "/index.tsx", p ++ "/index.js"]

/-- `_resolve_import`: the first candidate that is a collected file (a key
of `self.files`) wins; otherwise `None`. -/
def resolveImport (fileKeys : List String) (from_file import_source : String) :
    Option String :=
  match logicalPath from_file import_source with
  | none => none
  | some p => (resolveCandidates p).find? (fun c => fileKeys.contains c)

/-- A directed edge `importer → imported` (forward) or
`imported → importer` (reverse). -/
abbrev Edge := String × String

/-- `set.add` on an edge set kept as a duplicate-free list. -/
def addEdge (g : List Edge) (e : Edge) : List Edge :=
  if e ∈ g then g else g ++ [e]

/-- `_build_dependency_graph`: for every file and every parsed import that
resolves, add the forward edge to `import_graph` and the mirror edge to
`reverse_import_graph`. -/
def buildDependencyGraph (files : List AnalyzerFile) : List Edge × List Edge :=
  files.foldl (fun gs f =>
    f.imports.foldl (fun gs' src =>
      match resolveImport (files.map (fun fi => fi.relative_path)) f.relative_path src with
      | some resolved =>
        (addEdge gs'.1 (f.relative_path, resolved), addEdge gs'.2 (resolved, f.relative_path))
      | none => gs') gs) ([], [])

/-! ## deep-codebase-analyzer.py: cycle detection -/

/-- State shared by the nested `dfs` closure of
`_detect_circular_dependencies`: the `visited` and `rec_stack` sets, the
`path` list and the accumulated `circular_deps`. -/
structure DfsState where
  visited : List String
  recStack : List String
  path : List String
  cycles : List (List String)
deriving DecidableEq

/-- `set.add`. -/
def setAdd (l : List String) (x : String) : List String :=
  if x ∈ l then l else l ++ [x]

/-- The `for neighbor in self.import_graph.get(node, [])` loop of `dfs`,
parameterised by the recursive call `d` (the one-level-deeper `dfs`):
recurse into unvisited neighbors (propagating `True`), and when a
neighbor is on the recursion stack, record
`path[path.index(neighbor):] + [neighbor]` as a cycle and return `True`. -/
def visitNeighborsWith (d : String → DfsState → Bool × DfsState) :
    List String → DfsState → Bool × DfsState
  | [], s => (false, s)
  | n :: ns, s =>
    if n ∉ s.visited then
      match d n s with
      | (true, s') => (true, s')
      | (false, s') => visitNeighborsWith d ns s'
    else if n ∈ s.recStack then
      (true, { s with cycles := s.cycles ++ [s.path.drop (s.path.indexOf n) ++ [n]] })
    else
      visitNeighborsWith d ns s

/-- The recursive `dfs(node)` of `_detect_circular_dependencies`.  `fuel`
bounds the recursion depth (structural recursion on the fuel, so concrete
runs evaluate); since every recursive call is on a node that was not yet
visited and marks it visited first, a fuel larger than the number of
nodes is never exhausted.  Note that on the early `return True` the
`path` entry and `rec_stack` entry of `node` are *not* removed — this
mirrors the Python code, which only cleans up on the normal exit. -/
def dfs (g : String → List String) : Nat → String → DfsState → Bool × DfsState
  | 0 => fun _ s => (false, s)
  | fuel + 1 => fun node s =>
    let s1 : DfsState :=
      { s with visited := setAdd s.visited node
               recStack := setAdd s.recStack node
               path := s.path ++ [node] }
    match visitNeighborsWith (dfs g fuel) (g node) s1 with
    | (true, s2) => (true, s2)
    | (false, s2) =>
      (false, { s2 with path := s2.path.dropLast
                        recStack := s2.recStack.erase node })


/-- `_detect_circular_dependencies`: run `dfs` from every not-yet-visited
file, in collection order, ignoring the return value, and collect the
recorded cycles. -/
def detect_circular_dependencies (files : List String) (g : String → List String) :
    List (List String) :=
  (files.foldl (fun (s : DfsState) node =>
    if node ∈ s.visited then s else (dfs g (files.length + 1) node s).2)
    { visited := [], recStack := [], path := [], cycles := [] }).cycles

/-- Two disjoint two-file cycles: `a.ts ↔ b.ts` and `c.ts ↔ d.ts`. -/
def exFiles : List String := ["a.ts", "b.ts", "c.ts", "d.ts"]

/-- The import graph with exactly the four edges of the two cycles. -/
def exGraph : String → List String := fun n =>
  if n = "a.ts" then ["b.ts"]
  else if n = "b.ts" then ["a.ts"]
  else if n = "c.ts" then ["d.ts"]
  else if n = "d.ts" then ["c.ts"]
  else []

/-! ## deep-codebase-analyzer.py: duplicates and dead code -/

/-- `dict` lookup in `self.files` (keys are `relative_path`). -/
def lookupFile (files : List AnalyzerFile) (p : String) : Option AnalyzerFile :=
  files.find? (fun f => f.relative_path == p)

/-- `re.sub(r'\.(test|spec)$', '', base)`. -/
def stripTestSuffix (s : String) : String :=
  if strEndsWith s ".test" then s.dropRight 5
  else if strEndsWith s ".spec" then s.dropRight 5
  else s

/-- `defaultdict(list)[key].append(val)` on an association list kept in
dict insertion order. -/
def addToGroups (groups : List (String × List String)) (key val : String) :
    List (String × List String) :=
  match groups with
  | [] => [(key, [val])]
  | (k, vs) :: rest =>
    if k = key then (k, vs ++ [val]) :: rest
    else (k, vs) :: addToGroups rest key val

/-- One reported duplicate group. -/
structure DuplicateGroup where
  files : List String
  similarity_type : String
  details : String
deriving DecidableEq

/-- The `by_name` grouping of `_detect_duplicates`: every collected file,
keyed by its stem with test suffixes stripped. -/
def by_name_groups (files : List AnalyzerFile) : List (String × List String) :=
  files.foldl (fun gs f =>
    addToGroups gs (stripTestSuffix (pathStem f.relative_path)) f.relative_path) []

/-- The group (if any) emitted for one `by_name` bucket: buckets with two
or more members are filtered down to non-test files, and kept only when
at least two remain. -/
def nameGroupFor (files : List AnalyzerFile) (kv : String × List String) :
    List DuplicateGroup :=
  if kv.2.length > 1 then
    let non_test := kv.2.filter (fun p =>
      match lookupFile files p with
      | some fi => !fi.is_test_file
      | none => false)
    if non_test.length > 1 then
      [{ files := non_test
         similarity_type := "name"
         details := "Multiple files with base name '" ++ kv.1 ++ "'" }]
    else []
  else []

/-- The `by_hash` grouping: only non-test files are entered, keyed by
content hash. -/
def by_hash_groups (files : List AnalyzerFile) : List (String × List String) :=
  files.foldl (fun gs f =>
    if !f.is_test_file then addToGroups gs f.content_hash f.relative_path else gs) []

/-- The group (if any) emitted for one `by_hash` bucket. -/
def hashGroupFor (kv : String × List String) : List DuplicateGroup :=
  if kv.2.length > 1 then
    [{ files := kv.2
       similarity_type := "content"
       details := "Files with identical content (hash: " ++ kv.1 ++ ")" }]
  else []

/-- `_detect_duplicates`: the name-based groups followed by the
content-hash groups. -/
def detect_duplicates (files : List AnalyzerFile) : List DuplicateGroup :=
  ((by_name_groups files).foldl (fun acc kv => acc ++ nameGroupFor files kv) []) ++
  ((by_hash_groups files).foldl (fun acc kv => acc ++ hashGroupFor kv) [])

/-- `_find_related_test`: probe the four conventional test-file locations
for `file_path` against the collected file keys. -/
def find_related_test (fileKeys : List String) (file_path : String) : Option String :=
  let base := pathStem file_path
  let parent := pathParent file_path
  let patterns := ["tests/unit/" ++ parent ++ "/" ++ base ++ ".test.ts",
                   "tests/unit/" ++ parent ++ "/" ++ base ++ ".test.tsx",
                   "tests/unit/" ++ base ++ ".test.ts",
                   "tests/unit/" ++ base ++ ".test.tsx"]
  patterns.find? (fun pt => fileKeys.contains pt)

/-- One reported dead-code candidate. -/
structure DeadCodeCandidate where
  file_path : String
  reason : String
  confidence : String
  safe_to_delete : Bool
  related_test_file : Option String
deriving DecidableEq

/-- The importers of `p`: `reverse_import_graph.get(p, set())`. -/
def importersOf (rg : List Edge) (p : String) : List String :=
  (rg.filter (fun e => e.1 == p)).map (fun e => e.2)

/-- The body of the `_detect_dead_code` loop for one file: skip test files
and entry points; otherwise drop importers that are test files (or not
collected) and emit a candidate exactly when none remain, with confidence
`high` (no importers at all, safe to delete) or `medium` (importers exist
but are all test files). -/
def deadCodeFor (files : List AnalyzerFile) (rg : List Edge) (f : AnalyzerFile) :
    List DeadCodeCandidate :=
  if f.is_test_file || f.is_entry_point then []
  else
    let imported_by := importersOf rg f.relative_path
    let non_test_importers := imported_by.filter (fun p =>
      match lookupFile files p with
      | some fi => !fi.is_test_file
      | none => false)
    if non_test_importers.length = 0 then
      [{ file_path := f.relative_path
         reason := if imported_by.isEmpty then "No imports at all"
                   else "No non-test imports found"
         confidence := if imported_by.isEmpty then "high" else "medium"
         safe_to_delete := imported_by.isEmpty
         related_test_file :=
           find_related_test (files.map (fun fi => fi.relative_path)) f.relative_path }]
    else []

/-- `_detect_dead_code` over all collected files, in collection order. -/
def detect_dead_code (files : List AnalyzerFile) (rg : List Edge) :
    List DeadCodeCandidate :=
  files.foldl (fun acc f => acc ++ deadCodeFor files rg f) []

/-! ## Concrete analyzer inputs for witnesses -/

/-- A library file nobody imports. -/
def dcA : AnalyzerFile :=
  { relative_path := "lib/a.ts", imports := [], is_entry_point := false
    is_test_file := false, content_hash := "ha" }

/-- A library file imported only by the test file `dcTest`. -/
def dcB : AnalyzerFile :=
  { relative_path := "lib/b.ts", imports := [], is_entry_point := false
    is_test_file := false, content_hash := "hb" }

/-- The test file importing `lib/b.ts` through the `@/` alias. -/
def dcTest : AnalyzerFile :=
  { relative_path := "tests/unit/lib/b.test.ts", imports := ["@/lib/b"]
    is_entry_point := false, is_test_file := true, content_hash := "ht" }

/-- A library file imported by the non-test entry point `dcMain`. -/
def dcC : AnalyzerFile :=
  { relative_path := "lib/c.ts", imports := [], is_entry_point := false
    is_test_file := false, content_hash := "hc" }

/-- An entry point importing `lib/c.ts` relatively. -/
def dcMain : AnalyzerFile :=
  { relative_path := "app/main.ts", imports := ["../lib/c"]
    is_entry_point := true, is_test_file := false, content_hash := "hm" }

/-- The collected-file set for the dead-code witness. -/
def dcFiles : List AnalyzerFile := [dcA, dcB, dcTest, dcC, dcMain]

/-- Two non-test files sharing the base name `util` in different
directories, plus a test file sharing it as well. -/
def dupA : AnalyzerFile :=
  { relative_path := "lib/util.ts", imports := [], is_entry_point := false
    is_test_file := false, content_hash := "h1" }

def dupB : AnalyzerFile :=
  { relative_path := "components/util.ts", imports := [], is_entry_point := false
    is_test_file := false, content_hash := "h2" }

def dupTest : AnalyzerFile :=
  { relative_path := "tests/util.test.ts", imports := [], is_entry_point := false
    is_test_file := true, content_hash := "h1" }

/-- The collected-file set for the duplicate-group witness. -/
def dupFiles : List AnalyzerFile := [dupA, dupB, dupTest]

/-- The name-based duplicate group that `_detect_duplicates` reports for
`dupFiles`. -/
def dupGroupW : DuplicateGroup :=
  { files := ["lib/util.ts", "components/util.ts"]
    similarity_type := "name"
    details := "Multiple files with base name 'util'" }

/-! ## Helper lemmas for the batch scripts -/

theorem list_set_get_self {α : Type _} :
    ∀ (l : List α) (i : Nat) (a : α), l.get? i = some a → l.set i a = l
  | [], _, _, h => by simp at h
  | x :: xs, 0, a, h => by
    simp only [List.get?] at h
    obtain rfl : x = a := Option.some.inj h
    rfl
  | x :: xs, i + 1, a, h => by
    simp only [List.get?] at h
    simp [List.set, list_set_get_self xs i a h]

/-- Applying the batch record that `batch-quiz-update.py` built for the
question at `(ci, qi)` back onto an unchanged quiz leaves the quiz
unchanged and bumps `updated_count`. -/
theorem applyRecord_mk (q : Quiz) (n : Nat) (logs : List String) (ci qi : Nat)
    (ch : Chapter) (question : Question)
    (hch : q.chapters.get? ci = some ch)
    (hq : ch.questions.get? qi = some question) :
    applyRecord ⟨q, n, logs⟩ (mkRecord ci qi question) = .ok ⟨q, n + 1, logs⟩ := by
  have hci : ci < q.chapters.length := (List.get?_eq_some.1 hch).1
  have hqi : qi < ch.questions.length := (List.get?_eq_some.1 hq).1
  have h0ci : (0 : Int) ≤ (ci : Int) := Int.natCast_nonneg ci
  have h0qi : (0 : Int) ≤ (qi : Int) := Int.natCast_nonneg qi
  have hgeci : ¬ ((ci : Int) ≥ (q.chapters.length : Int)) := by
    exact_mod_cast Nat.not_le.2 hci
  have hgeqi : ¬ ((qi : Int) ≥ (ch.questions.length : Int)) := by
    exact_mod_cast Nat.not_le.2 hqi
  simp only [applyRecord, mkRecord, pyGet, pyModify, if_pos h0ci, if_pos h0qi,
    if_neg hgeci, Int.toNat_natCast, hch]
  simp only [if_neg hgeqi, hq]
  rw [if_neg (fun h : question.questionId ≠ question.questionId => h rfl)]
  have e1 : ({ questionId := question.questionId
               questionText := question.questionText
               options := question.options
               correctOptionIds := question.correctOptionIds
               explanationText := question.explanationText } : Question) = question := rfl
  rw [e1, list_set_get_self ch.questions qi question hq]
  have e2 : ({ questions := ch.questions } : Chapter) = ch := rfl
  rw [e2, list_set_get_self q.chapters ci ch hch]

/-- A batch record is consistent with `q` when it is exactly the record the
splitter builds for the question at its indices. -/
def ConsistentWith (q : Quiz) (r : BatchRecord) : Prop :=
  ∃ ci qi ch question, q.chapters.get? ci = some ch ∧
    ch.questions.get? qi = some question ∧ r = mkRecord ci qi question

theorem mergeRecords_consistent (q : Quiz) :
    ∀ (rs : List BatchRecord) (n : Nat) (logs : List String),
    (∀ r ∈ rs, ConsistentWith q r) →
    mergeRecords rs ⟨q, n, logs⟩ = .ok ⟨q, n + rs.length, logs⟩
  | [], n, logs, _ => by simp [mergeRecords]
  | r :: rs, n, logs, h => by
    obtain ⟨ci, qi, ch, question, hch, hq, hr⟩ := h r (List.mem_cons_self r rs)
    rw [mergeRecords, hr, applyRecord_mk q n logs ci qi ch question hch hq]
    show mergeRecords rs ⟨q, n + 1, logs⟩ = _
    rw [mergeRecords_consistent q rs (n + 1) logs
      (fun r' hr' => h r' (List.mem_cons_of_mem r hr'))]
    have harith : n + 1 + rs.length = n + (r :: rs).length := by
      simp [List.length_cons]
      omega
    rw [harith, hr]

theorem mem_recordsOfChapter (ci : Nat) :
    ∀ (k : Nat) (qs : List Question) (r : BatchRecord), r ∈ recordsOfChapter ci k qs →
    ∃ j q', qs.get? j = some q' ∧ r = mkRecord ci (k + j) q'
  | _, [], _, h => by simp [recordsOfChapter] at h
  | k, q :: qs, r, h => by
    rw [recordsOfChapter] at h
    rcases List.mem_cons.1 h with h | h
    · exact ⟨0, q, rfl, by simpa using h⟩
    · obtain ⟨j, q', hj, hr⟩ := mem_recordsOfChapter ci (k + 1) qs r h
      refine ⟨j + 1, q', by simpa using hj, ?_⟩
      rw [hr]
      congr 1
      omega

theorem mem_allQuestionsFrom :
    ∀ (k : Nat) (chs : List Chapter) (r : BatchRecord), r ∈ allQuestionsFrom k chs →
    ∃ i ch, chs.get? i = some ch ∧ r ∈ recordsOfChapter (k + i) 0 ch.questions
  | _, [], _, h => by simp [allQuestionsFrom] at h
  | k, ch :: chs, r, h => by
    rw [allQuestionsFrom] at h
    rcases List.mem_append.1 h with h | h
    · exact ⟨0, ch, rfl, by simpa using h⟩
    · obtain ⟨i, ch', hi, hr⟩ := mem_allQuestionsFrom (k + 1) chs r h
      refine ⟨i + 1, ch', by simpa using hi, ?_⟩
      have : k + (i + 1) = k + 1 + i := by omega
      rw [this]
      exact hr

theorem all_questions_consistent (q : Quiz) (r : BatchRecord)
    (h : r ∈ all_questions q) : ConsistentWith q r := by
  obtain ⟨i, ch, hi, hr⟩ := mem_allQuestionsFrom 0 q.chapters r h
  rw [Nat.zero_add] at hr
  obtain ⟨j, q', hj, hr'⟩ := mem_recordsOfChapter i 0 ch.questions r hr
  rw [Nat.zero_add] at hr'
  exact ⟨i, j, ch, q', hi, hj, hr'⟩

theorem makeBatchesFuel_flatten :
    ∀ (fuel : Nat) (l : List BatchRecord), l.length ≤ fuel →
    (makeBatchesFuel fuel l).flatten = l
  | fuel, [], _ => by cases fuel <;> rfl
  | 0, x :: xs, h => by simp at h
  | fuel + 1, x :: xs, h => by
    rw [makeBatchesFuel, List.flatten_cons,
      makeBatchesFuel_flatten fuel ((x :: xs).drop BATCH_SIZE)
        (by simp only [BATCH_SIZE, List.length_drop, List.length_cons]
            simp only [List.length_cons] at h
            omega),
      List.take_append_drop]

theorem make_batches_flatten (l : List BatchRecord) : (make_batches l).flatten = l :=
  makeBatchesFuel_flatten l.length l (Nat.le_refl _)

theorem batchDatas_questions (q : Quiz) :
    (batchDatas q).map (fun bd => bd.questions) = make_batches (all_questions q) := by
  rw [batchDatas, List.map_map]
  exact List.enum_map_snd (make_batches (all_questions q))

/-- **C7**: splitting the quiz into batches and merging the unmodified
batch set back reproduces the original document: every batch record
passes the index and `questionId` validation and rewrites its question
with its original `options` and `explanationText`, so the merged document
equals the original in every field (the emitted JSON can then differ only
in key ordering and whitespace), every question counts as updated, and no
mismatch is logged. -/
theorem C7_split_merge_roundtrip (quiz : Quiz) :
    mergeAllBatches quiz =
      .ok { quiz := quiz, updated := (all_questions quiz).length, logs := [] } := by
  rw [mergeAllBatches, batchDatas_questions, make_batches_flatten]
  rw [mergeRecords_consistent quiz (all_questions quiz) 0 []
    (fun r hr => all_questions_consistent quiz r hr)]
  rw [Nat.zero_add]

theorem makeBatchesFuel_sizes :
    ∀ (fuel : Nat) (l : List BatchRecord), ∀ b ∈ makeBatchesFuel fuel l,
      0 < b.length ∧ b.length ≤ BATCH_SIZE
  | _, [], b, h => by simp [makeBatchesFuel] at h
  | 0, x :: xs, b, h => by simp [makeBatchesFuel] at h
  | fuel + 1, x :: xs, b, h => by
    rw [makeBatchesFuel] at h
    rcases List.mem_cons.1 h with rfl | h
    · refine ⟨by simp [BATCH_SIZE], ?_⟩
      simp only [List.length_take]
      exact Nat.min_le_left _ _
    · exact makeBatchesFuel_sizes fuel ((x :: xs).drop BATCH_SIZE) b h

theorem make_batches_sizes (l : List BatchRecord) :
    ∀ b ∈ make_batches l, 0 < b.length ∧ b.length ≤ BATCH_SIZE :=
  makeBatchesFuel_sizes l.length l

theorem makeBatchesFuel_full :
    ∀ (fuel : Nat) (l : List BatchRecord), ∀ b ∈ (makeBatchesFuel fuel l).dropLast,
      b.length = BATCH_SIZE
  | _, [], b, h => by simp [makeBatchesFuel] at h
  | 0, x :: xs, b, h => by simp [makeBatchesFuel] at h
  | fuel + 1, x :: xs, b, h => by
    rw [makeBatchesFuel] at h
    rcases hrest : makeBatchesFuel fuel ((x :: xs).drop BATCH_SIZE) with _ | ⟨y, ys⟩
    · rw [hrest] at h
      simp at h
    · rw [hrest, List.dropLast_cons₂] at h
      rcases List.mem_cons.1 h with rfl | h
      · have hlen : BATCH_SIZE ≤ (x :: xs).length := by
          by_contra hlt
          push_neg at hlt
          have hdrop : (x :: xs).drop BATCH_SIZE = [] :=
            List.drop_eq_nil_of_le (by omega)
          rw [hdrop] at hrest
          simp [makeBatchesFuel] at hrest
        simp only [List.length_take]
        exact Nat.min_eq_left hlen
      · have := makeBatchesFuel_full fuel ((x :: xs).drop BATCH_SIZE) b
        rw [hrest] at this
        exact this h

theorem make_batches_full (l : List BatchRecord) :
    ∀ b ∈ (make_batches l).dropLast, b.length = BATCH_SIZE :=
  makeBatchesFuel_full l.length l

/-- **C9**: batch splitting partitions the question list into consecutive
groups of the fixed batch size 3 (every group is nonempty and at most 3
long, every group except possibly the last is exactly 3 long, and the
groups concatenate back to the original list in order); in particular
splitting the ten-question `quizTen` yields exactly 4 batch files with
sizes `[3, 3, 3, 1]`, preserving question order. -/
theorem C9_batch_partition :
    (∀ l : List BatchRecord, (make_batches l).flatten = l) ∧
    (∀ (l : List BatchRecord), ∀ b ∈ make_batches l,
      0 < b.length ∧ b.length ≤ BATCH_SIZE) ∧
    (∀ (l : List BatchRecord), ∀ b ∈ (make_batches l).dropLast,
      b.length = BATCH_SIZE) ∧
    (batchDatas quizTen).map (fun bd => bd.questions.length) = [3, 3, 3, 1] ∧
    (batchDatas quizTen).length = 4 ∧
    ((batchDatas quizTen).map (fun bd => bd.questions)).flatten =
      all_questions quizTen := by
  refine ⟨make_batches_flatten, make_batches_sizes, make_batches_full, ?_, ?_, ?_⟩
  · rfl
  · rfl
  · rw [batchDatas_questions, make_batches_flatten]

/-- Witness for `C9_batch_partition` at concrete inputs: the singleton
batch of a one-record list is nonempty and within the batch size, and the
first batch of `quizTen`'s ten records (a non-final batch) has exactly
`BATCH_SIZE` records. -/
theorem C9_batch_partition_witness :
    (0 < ([mkRecord 0 0 (mkQ 0)] : List BatchRecord).length ∧
      ([mkRecord 0 0 (mkQ 0)] : List BatchRecord).length ≤ BATCH_SIZE) ∧
    ((all_questions quizTen).take BATCH_SIZE).length = BATCH_SIZE :=
  ⟨C9_batch_partition.2.1 [mkRecord 0 0 (mkQ 0)] [mkRecord 0 0 (mkQ 0)]
      (by rw [make_batches]; exact List.mem_singleton.2 (by rfl)),
   C9_batch_partition.2.2.1 (all_questions quizTen)
      ((all_questions quizTen).take BATCH_SIZE) (by decide)⟩

/-! ## Helper lemmas for the merge's skip behaviour (C8) -/

theorem pyGet_map (l : List α) (f : α → β) (i : Int) :
    pyGet (l.map f) i = (pyGet l i).map f := by
  simp only [pyGet, List.length_map]
  split
  · exact List.get?_map f l _
  · split
    · exact List.get?_map f l _
    · rfl

theorem pyModify_map (l : List α) (i : Int) (f : α → α) (g : α → β)
    (hg : ∀ a, g (f a) = g a) : (pyModify l i f).map g = l.map g := by
  unfold pyModify
  split
  · cases hget : l.get? i.toNat with
    | none => rfl
    | some a =>
      show (l.set i.toNat (f a)).map g = l.map g
      rw [List.map_set, hg]
      exact list_set_get_self (l.map g) i.toNat (g a)
        (by rw [List.get?_map, hget]; rfl)
  · split
    · cases hget : l.get? (i + l.length).toNat with
      | none => rfl
      | some a =>
        show (l.set (i + l.length).toNat (f a)).map g = l.map g
        rw [List.map_set, hg]
        exact list_set_get_self (l.map g) (i + l.length).toNat (g a)
          (by rw [List.get?_map, hget]; rfl)
    · rfl

/-- A record application that succeeds never changes the chapter count,
the per-chapter question counts, or any `questionId`. -/
theorem applyRecord_shape (s : MergeState) (r : BatchRecord) (s' : MergeState)
    (h : applyRecord s r = .ok s') : quizShape s'.quiz = quizShape s.quiz := by
  unfold applyRecord at h
  split at h
  · cases h
    rfl
  · split at h
    · cases h
    · split at h
      · cases h
        rfl
      · split at h
        · cases h
        · split at h
          · cases h
            rfl
          · cases h
            simp only [quizShape]
            exact pyModify_map s.quiz.chapters r.chapterIndex _ _
              (fun ch => pyModify_map ch.questions r.questionIndex _ _
                (fun qu => rfl))

theorem mergeRecords_shape :
    ∀ (l : List BatchRecord) (s s' : MergeState),
    mergeRecords l s = .ok s' → quizShape s'.quiz = quizShape s.quiz
  | [], s, s', h => by
    rw [mergeRecords] at h
    cases h
    rfl
  | r :: l, s, s', h => by
    rw [mergeRecords] at h
    cases happ : applyRecord s r with
    | error e => rw [happ] at h; cases h
    | ok t =>
      rw [happ] at h
      rw [mergeRecords_shape l t s' h, applyRecord_shape s r t happ]

theorem mergeRecords_append :
    ∀ (a b : List BatchRecord) (s : MergeState),
    mergeRecords (a ++ b) s = match mergeRecords a s with
      | .ok s' => mergeRecords b s'
      | .error e => .error e
  | [], b, s => by rw [List.nil_append, mergeRecords]
  | r :: a, b, s => by
    rw [List.cons_append, mergeRecords, mergeRecords]
    cases applyRecord s r with
    | ok s' => exact mergeRecords_append a b s'
    | error e => rfl

/-- `applyRecord` is affine in the `updated` counter and the log list. -/
theorem applyRecord_frame (q : Quiz) (n : Nat) (logs : List String) (r : BatchRecord) :
    applyRecord ⟨q, n, logs⟩ r = (applyRecord ⟨q, 0, []⟩ r).map
      (fun t => ⟨t.quiz, n + t.updated, logs ++ t.logs⟩) := by
  by_cases h1 : r.chapterIndex ≥ (q.chapters.length : Int)
  · simp [applyRecord, h1, Except.map]
  · cases hget : pyGet q.chapters r.chapterIndex with
    | none => simp [applyRecord, h1, hget, Except.map]
    | some chapter =>
      by_cases h2 : r.questionIndex ≥ (chapter.questions.length : Int)
      · simp [applyRecord, h1, hget, h2, Except.map]
      · cases hq : pyGet chapter.questions r.questionIndex with
        | none => simp [applyRecord, h1, hget, h2, hq, Except.map]
        | some question =>
          by_cases h3 : question.questionId ≠ r.questionId
          · simp [applyRecord, h1, hget, h2, hq, h3, Except.map]
          · simp [applyRecord, h1, hget, h2, hq, h3, Except.map]

theorem mergeRecords_frame :
    ∀ (l : List BatchRecord) (q : Quiz) (n : Nat) (logs : List String),
    mergeRecords l ⟨q, n, logs⟩ = (mergeRecords l ⟨q, 0, []⟩).map
      (fun t => ⟨t.quiz, n + t.updated, logs ++ t.logs⟩)
  | [], q, n, logs => by simp [mergeRecords, Except.map]
  | r :: l, q, n, logs => by
    rw [mergeRecords, mergeRecords, applyRecord_frame q n logs r]
    cases happ : applyRecord ⟨q, 0, []⟩ r with
    | error e => rfl
    | ok t =>
      simp only [Except.map]
      rw [mergeRecords_frame l t.quiz (n + t.updated) (logs ++ t.logs)]
      have heta : mergeRecords l t = mergeRecords l ⟨t.quiz, t.updated, t.logs⟩ := rfl
      rw [heta, mergeRecords_frame l t.quiz t.updated t.logs]
      cases mergeRecords l ⟨t.quiz, 0, []⟩ with
      | error e => rfl
      | ok u => simp [Except.map, Nat.add_assoc, List.append_assoc]

/-- A record rejected by the bound checks or the `questionId` comparison
produces exactly one log line and leaves everything else alone. -/
theorem applyRecord_rejects (s : MergeState) (r : BatchRecord)
    (h : rejects (quizShape s.quiz) r) :
    ∃ m, applyRecord s r = .ok ⟨s.quiz, s.updated, s.logs ++ [m]⟩ := by
  have hlen : (quizShape s.quiz).length = s.quiz.chapters.length :=
    List.length_map _ _
  rcases h with h | ⟨hlt, h2⟩
  · refine ⟨"Chapter " ++ toString r.chapterIndex ++ " not found", ?_⟩
    unfold applyRecord
    rw [if_pos (show r.chapterIndex ≥ (s.quiz.chapters.length : Int) by
      rw [show ((s.quiz.chapters.length : Int)) = ((quizShape s.quiz).length : Int) by
        exact_mod_cast congrArg Nat.cast hlen.symm]
      exact h)]
  · have hlt' : ¬ (r.chapterIndex ≥ (s.quiz.chapters.length : Int)) := by
      rw [show ((s.quiz.chapters.length : Int)) = ((quizShape s.quiz).length : Int) by
        exact_mod_cast congrArg Nat.cast hlen.symm]
      omega
    cases hg : pyGet (quizShape s.quiz) r.chapterIndex with
    | none => rw [hg] at h2; exact h2.elim
    | some ids =>
      rw [hg] at h2
      rw [quizShape, pyGet_map] at hg
      obtain ⟨chapter, hch, hids⟩ := Option.map_eq_some'.1 hg
      have hidlen : ids.length = chapter.questions.length := by
        rw [← hids, List.length_map]
      rcases h2 with h2 | ⟨hqlt, h3⟩
      · refine ⟨"Question " ++ toString r.questionIndex ++ " not found in chapter "
          ++ toString r.chapterIndex, ?_⟩
        unfold applyRecord
        rw [if_neg hlt']
        simp only [hch]
        rw [if_pos (show r.questionIndex ≥ (chapter.questions.length : Int) by
          rw [show ((chapter.questions.length : Int)) = ((ids.length : Int) : Int) by
            exact_mod_cast congrArg Nat.cast hidlen.symm]
          exact h2)]
      · have hqlt' : ¬ (r.questionIndex ≥ (chapter.questions.length : Int)) := by
          rw [show ((chapter.questions.length : Int)) = ((ids.length : Int) : Int) by
            exact_mod_cast congrArg Nat.cast hidlen.symm]
          omega
        cases hq : pyGet ids r.questionIndex with
        | none => rw [hq] at h3; exact h3.elim
        | some qid =>
          rw [hq] at h3
          rw [← hids, pyGet_map] at hq
          obtain ⟨question, hquestion, hqid⟩ := Option.map_eq_some'.1 hq
          refine ⟨"Question ID mismatch: expected " ++ r.questionId ++ ", got "
            ++ question.questionId, ?_⟩
          unfold applyRecord
          rw [if_neg hlt']
          simp only [hch]
          rw [if_neg hqlt']
          simp only [hquestion]
          rw [if_pos (show question.questionId ≠ r.questionId by
            rw [hqid]; exact h3)]

/-- Counterexample to **C8** as stated: a record whose chapter index is
out of range is not always skipped.  The claim asserts that every batch
record with an out-of-range chapter or question index is skipped, logged,
and leaves the document unchanged, with the output still written.  But
the merge only checks `index >= len`: the record `rCrash` (chapter index
`-5` on the two-chapter `quizEx`) reaches the subscript and raises
`IndexError`, aborting the merge, and the record `rWrap` (indices
`(-1, -1)`, which are outside `[0, len)`) wraps around Python-style and
mutates the last question of the last chapter instead of being skipped. -/
theorem C8_counterexample :
    mergeRecords [rCrash] { quiz := quizEx, updated := 0, logs := [] } =
      .error "IndexError: list index out of range" ∧
    mergeRecords [rWrap] { quiz := quizEx, updated := 0, logs := [] } =
      .ok { quiz := quizExWrapped, updated := 1, logs := [] } ∧
    quizExWrapped ≠ quizEx :=
  ⟨rfl, rfl, by decide⟩

/-- **C8** (amended): for every batch record that fails the merge's
validation — chapter index `≥` the chapter count, or question index `≥`
the selected chapter's question count, or `questionId` differing from the
source question at that position — the merge skips the record, logs
exactly one message, and leaves the document unchanged; all other
records' updates are still applied and the output is still produced.
(Records with negative indices are not validated: they follow Python
negative-index semantics, wrapping around or raising `IndexError`.) -/
theorem C8_amended (q : Quiz) (l1 l2 : List BatchRecord) (r : BatchRecord)
    (hr : rejects (quizShape q) r) (s : MergeState)
    (hok : mergeRecords (l1 ++ l2) ⟨q, 0, []⟩ = .ok s) :
    ∃ s', mergeRecords (l1 ++ r :: l2) ⟨q, 0, []⟩ = .ok s' ∧
      s'.quiz = s.quiz ∧ s'.updated = s.updated ∧
      s'.logs.length = s.logs.length + 1 := by
  rw [mergeRecords_append] at hok
  cases h1 : mergeRecords l1 ⟨q, 0, []⟩ with
  | error e => rw [h1] at hok; cases hok
  | ok s1 =>
    rw [h1] at hok
    have hshape : quizShape s1.quiz = quizShape q :=
      mergeRecords_shape l1 ⟨q, 0, []⟩ s1 h1
    have hrej : rejects (quizShape s1.quiz) r := by rw [hshape]; exact hr
    obtain ⟨m, hm⟩ := applyRecord_rejects s1 r hrej
    rw [mergeRecords_append l1 (r :: l2) ⟨q, 0, []⟩, h1]
    show ∃ s', mergeRecords (r :: l2) s1 = .ok s' ∧ s'.quiz = s.quiz ∧
      s'.updated = s.updated ∧ s'.logs.length = s.logs.length + 1
    rw [mergeRecords, hm]
    show ∃ s', mergeRecords l2 ⟨s1.quiz, s1.updated, s1.logs ++ [m]⟩ = .ok s' ∧
      s'.quiz = s.quiz ∧ s'.updated = s.updated ∧
      s'.logs.length = s.logs.length + 1
    rw [mergeRecords_frame l2 s1.quiz s1.updated (s1.logs ++ [m])]
    have hok' : (mergeRecords l2 ⟨s1.quiz, 0, []⟩).map
        (fun t => ⟨t.quiz, s1.updated + t.updated, s1.logs ++ t.logs⟩) = .ok s := by
      rw [← mergeRecords_frame l2 s1.quiz s1.updated s1.logs]
      exact hok
    cases hbase : mergeRecords l2 ⟨s1.quiz, 0, []⟩ with
    | error e => rw [hbase] at hok'; cases hok'
    | ok u =>
      rw [hbase] at hok'
      simp only [Except.map] at hok'
      cases hok'
      refine ⟨⟨u.quiz, s1.updated + u.updated, (s1.logs ++ [m]) ++ u.logs⟩,
        by simp [Except.map], rfl, rfl, ?_⟩
      simp only [List.length_append, List.length_cons, List.length_nil]
      omega

/-- Witness for `C8_amended`: the record `rOut` (chapter index 7 on the
two-chapter `quizEx`) inserted into an empty record sequence is skipped
with one log line and the document is unchanged. -/
theorem C8_amended_witness :
    ∃ s', mergeRecords ([] ++ rOut :: []) { quiz := quizEx, updated := 0, logs := [] } =
        .ok s' ∧
      s'.quiz = quizEx ∧ s'.updated = 0 ∧ s'.logs.length = 0 + 1 :=
  C8_amended quizEx [] [] rOut (Or.inl (by decide)) ⟨quizEx, 0, []⟩ rfl

/-! ## Helper lemmas for the dependency graph (C2, C5) -/

theorem foldl_preserves {α σ : Type _} (P : σ → Prop) (f : σ → α → σ)
    (hf : ∀ s a, P s → P (f s a)) :
    ∀ (l : List α) (s : σ), P s → P (l.foldl f s)
  | [], _, hs => hs
  | a :: l, s, hs => foldl_preserves P f hf l (f s a) (hf s a hs)

theorem mem_addEdge (g : List Edge) (e e' : Edge) :
    e' ∈ addEdge g e ↔ e' ∈ g ∨ e' = e := by
  unfold addEdge
  split
  · next h => exact ⟨Or.inl, fun h' => h'.elim id (fun he => he ▸ h)⟩
  · simp [List.mem_append]

theorem addEdge_nodup (g : List Edge) (e : Edge) (h : g.Nodup) :
    (addEdge g e).Nodup := by
  unfold addEdge
  split
  · exact h
  · next hne =>
    refine List.Nodup.append h (List.nodup_singleton e) ?_
    intro a hag hae
    rw [List.mem_singleton] at hae
    subst hae
    exact hne hag

theorem buildDependencyGraph_inv (files : List AnalyzerFile) :
    ∀ x y, ((x, y) ∈ (buildDependencyGraph files).2 ↔
      (y, x) ∈ (buildDependencyGraph files).1) := by
  unfold buildDependencyGraph
  refine foldl_preserves
    (fun gs : List Edge × List Edge => ∀ a b, ((a, b) ∈ gs.2 ↔ (b, a) ∈ gs.1))
    _ ?_ files ([], []) (by simp)
  intro gs f hgs
  refine foldl_preserves
    (fun gs : List Edge × List Edge => ∀ a b, ((a, b) ∈ gs.2 ↔ (b, a) ∈ gs.1))
    _ ?_ f.imports gs hgs
  intro gs' src hgs'
  cases hres : resolveImport (files.map (fun fi => fi.relative_path))
      f.relative_path src with
  | none => exact hgs'
  | some t =>
    intro a b
    simp only [mem_addEdge, hgs' a b, Prod.mk.injEq]
    tauto

theorem buildDependencyGraph_nodup (files : List AnalyzerFile) :
    (buildDependencyGraph files).1.Nodup ∧ (buildDependencyGraph files).2.Nodup := by
  unfold buildDependencyGraph
  refine foldl_preserves (fun gs : List Edge × List Edge => gs.1.Nodup ∧ gs.2.Nodup)
    _ ?_ files ([], []) ⟨List.nodup_nil, List.nodup_nil⟩
  intro gs f hgs
  refine foldl_preserves (fun gs : List Edge × List Edge => gs.1.Nodup ∧ gs.2.Nodup)
    _ ?_ f.imports gs hgs
  intro gs' src hgs'
  cases hres : resolveImport (files.map (fun fi => fi.relative_path))
      f.relative_path src with
  | none => exact hgs'
  | some t => exact ⟨addEdge_nodup _ _ hgs'.1, addEdge_nodup _ _ hgs'.2⟩

/-- **C2**: after `_build_dependency_graph`, for every pair of paths the
reverse graph holds `(x, y)` exactly when the forward graph holds
`(y, x)`: the reverse graph is the transpose of the forward graph.  Both
are built by the same loop, each resolved import adding the two mirror
edges at once, and nothing else mutates them. -/
theorem C2_transpose_invariant (files : List AnalyzerFile) (x y : String) :
    ((x, y) ∈ (buildDependencyGraph files).2 ↔
      (y, x) ∈ (buildDependencyGraph files).1) :=
  buildDependencyGraph_inv files x y

theorem count_le_one_of_nodup {α : Type _} [BEq α] [LawfulBEq α] :
    ∀ (l : List α), l.Nodup → ∀ a, l.count a ≤ 1
  | [], _, a => by simp
  | x :: l, h, a => by
    rcases List.nodup_cons.1 h with ⟨hx, hl⟩
    by_cases hxa : a = x
    · subst hxa
      have h0 : l.count a = 0 := List.count_eq_zero.2 hx
      simp [List.count_cons, h0]
    · have := count_le_one_of_nodup l hl a
      simp only [List.count_cons]
      rw [if_neg (show ¬ ((x == a) = true) from
        fun hbe => hxa (eq_of_beq hbe).symm)]
      omega

/-- **C5**: dependency-graph construction is idempotent on edges — the
graphs are sets, so however many imports of one file resolve to the same
target, the forward graph holds at most one `(importer, target)` edge and
the reverse graph at most one `(target, importer)` edge. -/
theorem C5_idempotent_edges (files : List AnalyzerFile) (importer target : String) :
    ((buildDependencyGraph files).1.count (importer, target) ≤ 1) ∧
    ((buildDependencyGraph files).2.count (target, importer) ≤ 1) :=
  ⟨count_le_one_of_nodup _ (buildDependencyGraph_nodup files).1 _,
   count_le_one_of_nodup _ (buildDependencyGraph_nodup files).2 _⟩

/-- **C4**: path resolution tries the computed logical path verbatim
first, then each extension suffix, then the index files, in the fixed
order of `resolveCandidates`, returning the first candidate among the
collected files; in particular a specifier whose computed logical path is
itself a collected file resolves to that file.  Determinism is immediate:
`resolveImport` is a pure function of the collected-file keys, the
importer path and the specifier. -/
theorem C4_resolution (fileKeys : List String) (from_file import_source p : String)
    (hp : logicalPath from_file import_source = some p) :
    resolveImport fileKeys from_file import_source =
      (resolveCandidates p).find? (fun c => fileKeys.contains c) ∧
    (fileKeys.contains p = true →
      resolveImport fileKeys from_file import_source = some p) := by
  have h1 : resolveImport fileKeys from_file import_source =
      (resolveCandidates p).find? (fun c => fileKeys.contains c) := by
    unfold resolveImport
    rw [hp]
  refine ⟨h1, fun hmem => ?_⟩
  rw [h1]
  unfold resolveCandidates
  exact List.find?_cons_of_pos _ hmem

/-- Witness for `C4_resolution`: from `components/x.ts`, the specifier
`../lib/a.ts` computes the logical path `lib/a.ts`, which is collected,
and resolves verbatim. -/
theorem C4_resolution_witness :
    resolveImport ["lib/a.ts"] "components/x.ts" "../lib/a.ts" = some "lib/a.ts" :=
  (C4_resolution ["lib/a.ts"] "components/x.ts" "../lib/a.ts" "lib/a.ts" rfl).2 rfl

/-! ## Cycle counting (C1, C6) -/

theorem visitNeighborsWith_cycles
    (d : String → DfsState → Bool × DfsState)
    (hd : ∀ node s, ((d node s).2).cycles.length =
      s.cycles.length + ((d node s).1).toNat) :
    ∀ (ns : List String) (s : DfsState),
    ((visitNeighborsWith d ns s).2).cycles.length =
      s.cycles.length + ((visitNeighborsWith d ns s).1).toNat
  | [], s => by simp [visitNeighborsWith]
  | n :: ns, s => by
    rw [visitNeighborsWith]
    by_cases hv : n ∉ s.visited
    · rw [if_pos hv]
      rcases hres : d n s with ⟨found, s'⟩
      have h1 := hd n s
      rw [hres] at h1
      cases found
      · have h2 := visitNeighborsWith_cycles d hd ns s'
        simp only [Bool.toNat_false, Nat.add_zero] at h1
        simp only [h2, h1]
      · simpa using h1
    · rw [if_neg hv]
      by_cases hr : n ∈ s.recStack
      · rw [if_pos hr]
        simp
      · rw [if_neg hr]
        exact visitNeighborsWith_cycles d hd ns s

theorem dfs_cycles (g : String → List String) :
    ∀ (fuel : Nat) (node : String) (s : DfsState),
    ((dfs g fuel node s).2).cycles.length =
      s.cycles.length + ((dfs g fuel node s).1).toNat
  | 0, node, s => by simp [dfs]
  | fuel + 1, node, s => by
    have hd := dfs_cycles g fuel
    simp only [dfs]
    rcases hres : visitNeighborsWith (dfs g fuel) (g node)
      { s with visited := setAdd s.visited node
               recStack := setAdd s.recStack node
               path := s.path ++ [node] } with ⟨found, s2⟩
    have h1 := visitNeighborsWith_cycles (dfs g fuel) hd (g node)
      { s with visited := setAdd s.visited node
               recStack := setAdd s.recStack node
               path := s.path ++ [node] }
    rw [hres] at h1
    cases found
    · simpa using h1
    · simpa using h1

theorem detectLoop_cycles_le (g : String → List String) (fuel : Nat) :
    ∀ (files : List String) (s : DfsState),
    ((files.foldl (fun (s : DfsState) node =>
      if node ∈ s.visited then s else (dfs g fuel node s).2) s).cycles.length) ≤
      s.cycles.length + files.length
  | [], s => by simp
  | f :: fs, s => by
    rw [List.foldl_cons]
    refine le_trans (detectLoop_cycles_le g fuel fs _) ?_
    by_cases hv : f ∈ s.visited
    · rw [if_pos hv]
      simp only [List.length_cons]
      omega
    · rw [if_neg hv]
      have h1 := dfs_cycles g fuel f s
      simp only [List.length_cons]
      cases hb : (dfs g fuel f s).1 <;> rw [hb] at h1 <;> simp at h1 <;> omega

/-- Counterexample to **C1** as stated: the detector does *not* halt
entirely after the first cycle found in the graph.  On the four-file
graph `exFiles`/`exGraph` with two disjoint two-file cycles, the outer
loop restarts the search from the still-unvisited `c.ts` after the first
cycle is recorded, and both cycles end up recorded. -/
theorem C1_counterexample :
    detect_circular_dependencies exFiles exGraph =
      [["a.ts", "b.ts", "a.ts"], ["c.ts", "d.ts", "c.ts"]] ∧
    ¬ ((detect_circular_dependencies exFiles exGraph).length ≤ 1) :=
  ⟨rfl, by decide⟩

/-- **C1** (amended): cycle detection records at most one cycle per
top-level DFS exploration, not per analysis run.  Each call to `dfs`
appends exactly one cycle when it returns `True` and none when it
returns `False` (the traversal halts as soon as a cycle is recorded),
and the outer loop starts at most one exploration per file, so a run
records at most as many cycles as there are files; disjoint cycles
reached from distinct outer-loop roots are each recorded. -/
theorem C1_amended :
    (∀ (g : String → List String) (fuel : Nat) (node : String) (s : DfsState),
      ((dfs g fuel node s).2).cycles.length =
        s.cycles.length + ((dfs g fuel node s).1).toNat) ∧
    (∀ (files : List String) (g : String → List String),
      (detect_circular_dependencies files g).length ≤ files.length) :=
  ⟨fun g fuel node s => dfs_cycles g fuel node s,
   fun files g => by
    have h := detectLoop_cycles_le g (files.length + 1) files
      { visited := [], recStack := [], path := [], cycles := [] }
    simpa [detect_circular_dependencies] using h⟩

/-- **C6**: on a two-file graph where `A` imports `B` and `B` imports `A`
(and nothing else), cycle detection reports exactly one cycle, namely
`[A, B, A]`, which contains both files. -/
theorem C6_two_file_cycle (A B : String) (hAB : A ≠ B) :
    detect_circular_dependencies [A, B]
      (fun n => if n = A then [B] else if n = B then [A] else []) = [[A, B, A]] := by
  have hBA : B ≠ A := fun h => hAB h.symm
  simp [detect_circular_dependencies, dfs, visitNeighborsWith, setAdd, hAB, hBA]

/-- Witness for `C6_two_file_cycle` at the concrete files `a.ts`, `b.ts`. -/
theorem C6_two_file_cycle_witness :
    detect_circular_dependencies ["a.ts", "b.ts"]
      (fun n => if n = "a.ts" then ["b.ts"] else if n = "b.ts" then ["a.ts"] else []) =
      [["a.ts", "b.ts", "a.ts"]] :=
  C6_two_file_cycle "a.ts" "b.ts" (by decide)

/-! ## Dead-code classification (C3) -/

theorem foldl_append_eq {α β : Type _} (h : α → List β) :
    ∀ (l : List α) (acc : List β),
    l.foldl (fun a x => a ++ h x) acc = acc ++ (l.map h).flatten
  | [], acc => by simp
  | x :: xs, acc => by
    simp only [List.foldl_cons, List.map_cons, List.flatten_cons]
    rw [foldl_append_eq h xs (acc ++ h x), List.append_assoc]

theorem mem_detect_dead_code (files : List AnalyzerFile) (rg : List Edge)
    (c : DeadCodeCandidate) :
    c ∈ detect_dead_code files rg ↔ ∃ f ∈ files, c ∈ deadCodeFor files rg f := by
  unfold detect_dead_code
  rw [foldl_append_eq (deadCodeFor files rg) files [], List.nil_append,
    List.mem_flatten]
  constructor
  · rintro ⟨l, hl, hc⟩
    obtain ⟨f, hf, rfl⟩ := List.mem_map.1 hl
    exact ⟨f, hf, hc⟩
  · rintro ⟨f, hf, hc⟩
    exact ⟨deadCodeFor files rg f, List.mem_map.2 ⟨f, hf, rfl⟩, hc⟩

theorem deadCodeFor_path (files : List AnalyzerFile) (rg : List Edge)
    (f : AnalyzerFile) (c : DeadCodeCandidate) (hc : c ∈ deadCodeFor files rg f) :
    c.file_path = f.relative_path := by
  simp only [deadCodeFor] at hc
  split at hc
  · simp at hc
  · split at hc
    · rw [List.mem_singleton] at hc
      subst hc
      rfl
    · simp at hc

/-- **C3**: for every collected file that is neither a test file nor an
entry point, with `rg` the reverse graph produced by
`_build_dependency_graph`: no importer at all gives a dead-code candidate
with confidence `high` and safe-to-delete `true`; importers that are all
test files give a candidate with confidence `medium` and safe-to-delete
`false`; at least one non-test importer gives no candidate for that file.
(Collected paths are assumed distinct: they are the keys of the
`self.files` dict.) -/
theorem C3_dead_code_classification (files : List AnalyzerFile)
    (hnd : (files.map (fun f => f.relative_path)).Nodup)
    (f : AnalyzerFile) (hf : f ∈ files)
    (hnt : f.is_test_file = false) (hne : f.is_entry_point = false) :
    (importersOf (buildDependencyGraph files).2 f.relative_path = [] →
      ∃ c ∈ detect_dead_code files (buildDependencyGraph files).2,
        c.file_path = f.relative_path ∧ c.confidence = "high" ∧
        c.safe_to_delete = true) ∧
    (importersOf (buildDependencyGraph files).2 f.relative_path ≠ [] ∧
      (∀ p ∈ importersOf (buildDependencyGraph files).2 f.relative_path,
        ∃ fi, lookupFile files p = some fi ∧ fi.is_test_file = true) →
      ∃ c ∈ detect_dead_code files (buildDependencyGraph files).2,
        c.file_path = f.relative_path ∧ c.confidence = "medium" ∧
        c.safe_to_delete = false) ∧
    ((∃ p ∈ importersOf (buildDependencyGraph files).2 f.relative_path,
        ∃ fi, lookupFile files p = some fi ∧ fi.is_test_file = false) →
      ∀ c ∈ detect_dead_code files (buildDependencyGraph files).2,
        c.file_path ≠ f.relative_path) := by
  refine ⟨fun himp => ?_, fun hmed => ?_, fun hlive => ?_⟩
  · have hdc : deadCodeFor files (buildDependencyGraph files).2 f =
        [{ file_path := f.relative_path
           reason := "No imports at all"
           confidence := "high"
           safe_to_delete := true
           related_test_file := find_related_test
             (files.map (fun fi => fi.relative_path)) f.relative_path }] := by
      simp [deadCodeFor, hnt, hne, himp]
    refine ⟨_, (mem_detect_dead_code files _ _).2
      ⟨f, hf, by rw [hdc]; exact List.mem_singleton_self _⟩, rfl, rfl, rfl⟩
  · obtain ⟨hne2, hall⟩ := hmed
    have hfilter : (importersOf (buildDependencyGraph files).2 f.relative_path).filter
        (fun p => match lookupFile files p with
          | some fi => !fi.is_test_file
          | none => false) = [] := by
      rw [List.filter_eq_nil]
      intro p hp
      obtain ⟨fi, hfi, hfit⟩ := hall p hp
      simp [hfi, hfit]
    have hie : (importersOf (buildDependencyGraph files).2 f.relative_path).isEmpty
        = false := by
      cases himp2 : importersOf (buildDependencyGraph files).2 f.relative_path with
      | nil => exact absurd himp2 hne2
      | cons a l => rfl
    have hdc : deadCodeFor files (buildDependencyGraph files).2 f =
        [{ file_path := f.relative_path
           reason := "No non-test imports found"
           confidence := "medium"
           safe_to_delete := false
           related_test_file := find_related_test
             (files.map (fun fi => fi.relative_path)) f.relative_path }] := by
      simp only [deadCodeFor, hnt, hne, Bool.or_self, Bool.false_eq_true, if_false,
        hfilter, List.length_nil, hie]
      simp
    refine ⟨_, (mem_detect_dead_code files _ _).2
      ⟨f, hf, by rw [hdc]; exact List.mem_singleton_self _⟩, rfl, rfl, rfl⟩
  · obtain ⟨p, hp, fi, hfi, hfit⟩ := hlive
    intro c hc hcp
    obtain ⟨f', hf', hcf'⟩ := (mem_detect_dead_code files _ c).1 hc
    have hpath := deadCodeFor_path files _ f' c hcf'
    have heq : f' = f := by
      have hpe : f'.relative_path = f.relative_path := by
        rw [← hpath, hcp]
      exact List.inj_on_of_nodup_map hnd hf' hf hpe
    subst heq
    have hpred : (fun p => match lookupFile files p with
        | some fi => !fi.is_test_file
        | none => false) p = true := by
      simp [hfi, hfit]
    have hmemf : p ∈ (importersOf (buildDependencyGraph files).2
        f'.relative_path).filter (fun p => match lookupFile files p with
          | some fi => !fi.is_test_file
          | none => false) := List.mem_filter.2 ⟨hp, hpred⟩
    have hlen : ((importersOf (buildDependencyGraph files).2
        f'.relative_path).filter (fun p => match lookupFile files p with
          | some fi => !fi.is_test_file
          | none => false)).length ≠ 0 := by
      intro h0
      rw [List.length_eq_zero] at h0
      rw [h0] at hmemf
      simp at hmemf
    have hdc : deadCodeFor files (buildDependencyGraph files).2 f' = [] := by
      simp only [deadCodeFor, hnt, hne, Bool.or_self, Bool.false_eq_true, if_false]
      rw [if_neg hlen]
    rw [hdc] at hcf'
    simp at hcf'

/-- Witness for `C3_dead_code_classification` on the concrete file set
`dcFiles`: `lib/a.ts` (no importers) is a high-confidence candidate,
`lib/b.ts` (imported only by the test file) a medium-confidence one, and
`lib/c.ts` (imported by the non-test `app/main.ts`) no candidate. -/
theorem C3_dead_code_classification_witness :
    (∃ c ∈ detect_dead_code dcFiles (buildDependencyGraph dcFiles).2,
      c.file_path = dcA.relative_path ∧ c.confidence = "high" ∧
      c.safe_to_delete = true) ∧
    (∃ c ∈ detect_dead_code dcFiles (buildDependencyGraph dcFiles).2,
      c.file_path = dcB.relative_path ∧ c.confidence = "medium" ∧
      c.safe_to_delete = false) ∧
    (∀ c ∈ detect_dead_code dcFiles (buildDependencyGraph dcFiles).2,
      c.file_path ≠ dcC.relative_path) := by
  refine ⟨?_, ?_, ?_⟩
  · exact (C3_dead_code_classification dcFiles (by decide) dcA (by decide)
      rfl rfl).1 rfl
  · refine (C3_dead_code_classification dcFiles (by decide) dcB (by decide)
      rfl rfl).2.1 ⟨by decide, ?_⟩
    intro p hp
    have he : importersOf (buildDependencyGraph dcFiles).2 dcB.relative_path =
        ["tests/unit/lib/b.test.ts"] := rfl
    rw [he, List.mem_singleton] at hp
    subst hp
    exact ⟨dcTest, rfl, rfl⟩
  · exact (C3_dead_code_classification dcFiles (by decide) dcC (by decide)
      rfl rfl).2.2 ⟨"app/main.ts", by decide, dcMain, rfl, rfl⟩

/-! ## Duplicate groups (C10) -/

theorem foldl_preserves_mem {α σ : Type _} (P : σ → Prop) (f : σ → α → σ) :
    ∀ (l : List α), (∀ s a, a ∈ l → P s → P (f s a)) → ∀ s, P s → P (l.foldl f s)
  | [], _, _, hs => hs
  | a :: l, hf, s, hs =>
    foldl_preserves_mem P f l (fun s' b hb => hf s' b (List.mem_cons_of_mem a hb))
      (f s a) (hf s a (List.mem_cons_self a l) hs)

theorem addToGroups_inv (P : String → String → Prop) :
    ∀ (groups : List (String × List String)) (key val : String),
    (∀ kv ∈ groups, ∀ v ∈ kv.2, P kv.1 v) → P key val →
    ∀ kv ∈ addToGroups groups key val, ∀ v ∈ kv.2, P kv.1 v
  | [], key, val, _, hkv => by
    intro kv hkv'
    rw [addToGroups, List.mem_singleton] at hkv'
    subst hkv'
    intro v hv
    rw [List.mem_singleton] at hv
    subst hv
    exact hkv
  | (k, vs) :: rest, key, val, hgs, hkv => by
    intro kv hkv'
    rw [addToGroups] at hkv'
    by_cases hk : k = key
    · rw [if_pos hk] at hkv'
      rcases List.mem_cons.1 hkv' with rfl | hmem
      · intro v hv
        rcases List.mem_append.1 hv with hv | hv
        · exact hgs (k, vs) (List.mem_cons_self _ _) v hv
        · rw [List.mem_singleton] at hv
          subst hv
          rw [hk]
          exact hkv
      · exact hgs kv (List.mem_cons_of_mem _ hmem)
    · rw [if_neg hk] at hkv'
      rcases List.mem_cons.1 hkv' with rfl | hmem
      · exact hgs (k, vs) (List.mem_cons_self _ _)
      · exact addToGroups_inv P rest key val
          (fun kv' h => hgs kv' (List.mem_cons_of_mem _ h)) hkv kv hmem

theorem by_name_groups_inv (files : List AnalyzerFile) :
    ∀ kv ∈ by_name_groups files, ∀ v ∈ kv.2,
      stripTestSuffix (pathStem v) = kv.1 := by
  unfold by_name_groups
  refine foldl_preserves_mem
    (fun gs : List (String × List String) =>
      ∀ kv ∈ gs, ∀ v ∈ kv.2, stripTestSuffix (pathStem v) = kv.1)
    _ files ?_ [] (by simp)
  intro gs f _ hgs
  exact addToGroups_inv (fun k v => stripTestSuffix (pathStem v) = k)
    gs _ _ hgs rfl

theorem by_hash_groups_inv (files : List AnalyzerFile) :
    ∀ kv ∈ by_hash_groups files, ∀ v ∈ kv.2,
      ∃ f ∈ files, f.relative_path = v ∧ f.content_hash = kv.1 ∧
        f.is_test_file = false := by
  unfold by_hash_groups
  refine foldl_preserves_mem
    (fun gs : List (String × List String) =>
      ∀ kv ∈ gs, ∀ v ∈ kv.2,
      ∃ f ∈ files, f.relative_path = v ∧ f.content_hash = kv.1 ∧
        f.is_test_file = false)
    _ files ?_ [] (by simp)
  intro gs f hf hgs
  by_cases ht : f.is_test_file
  · simpa [ht] using hgs
  · rw [if_pos (by simp [ht])]
    exact addToGroups_inv
      (fun k v => ∃ f ∈ files, f.relative_path = v ∧ f.content_hash = k ∧
        f.is_test_file = false)
      gs _ _ hgs ⟨f, hf, rfl, rfl, by simp [ht]⟩

theorem mem_detect_duplicates (files : List AnalyzerFile) (g : DuplicateGroup) :
    g ∈ detect_duplicates files ↔
      (∃ kv ∈ by_name_groups files, g ∈ nameGroupFor files kv) ∨
      (∃ kv ∈ by_hash_groups files, g ∈ hashGroupFor kv) := by
  unfold detect_duplicates
  rw [List.mem_append, foldl_append_eq (nameGroupFor files) _ [],
    foldl_append_eq hashGroupFor _ [], List.nil_append, List.nil_append,
    List.mem_flatten, List.mem_flatten]
  constructor
  · rintro (⟨l, hl, hg⟩ | ⟨l, hl, hg⟩)
    · obtain ⟨kv, hkv, rfl⟩ := List.mem_map.1 hl
      exact Or.inl ⟨kv, hkv, hg⟩
    · obtain ⟨kv, hkv, rfl⟩ := List.mem_map.1 hl
      exact Or.inr ⟨kv, hkv, hg⟩
  · rintro (⟨kv, hkv, hg⟩ | ⟨kv, hkv, hg⟩)
    · exact Or.inl ⟨nameGroupFor files kv, List.mem_map.2 ⟨kv, hkv, rfl⟩, hg⟩
    · exact Or.inr ⟨hashGroupFor kv, List.mem_map.2 ⟨kv, hkv, rfl⟩, hg⟩

theorem nameGroupFor_spec (files : List AnalyzerFile) (kv : String × List String)
    (g : DuplicateGroup) (hg : g ∈ nameGroupFor files kv) :
    g.similarity_type = "name" ∧ 2 ≤ g.files.length ∧
    ∀ p ∈ g.files, p ∈ kv.2 ∧
      ∃ f ∈ files, f.relative_path = p ∧ f.is_test_file = false := by
  simp only [nameGroupFor] at hg
  split at hg
  · split at hg
    · rw [List.mem_singleton] at hg
      subst hg
      refine ⟨rfl, by simp only [] at *; omega, ?_⟩
      intro p hp
      have hmf := List.mem_filter.1 hp
      refine ⟨hmf.1, ?_⟩
      rcases hlk : lookupFile files p with _ | fi
      · rw [hlk] at hmf
        simp at hmf
      · have hfmem : fi ∈ files := List.mem_of_find?_eq_some hlk
        have hfp : fi.relative_path = p := by
          have := List.find?_some hlk
          simpa using this
        rw [hlk] at hmf
        exact ⟨fi, hfmem, hfp, by simpa using hmf.2⟩
    · simp at hg
  · simp at hg

theorem hashGroupFor_spec (kv : String × List String) (g : DuplicateGroup)
    (hg : g ∈ hashGroupFor kv) :
    g.similarity_type = "content" ∧ 2 ≤ g.files.length ∧ g.files = kv.2 := by
  simp only [hashGroupFor] at hg
  split at hg
  · rw [List.mem_singleton] at hg
    subst hg
    exact ⟨rfl, by simp only [] at *; omega, rfl⟩
  · simp at hg

/-- **C10**: every reported duplicate group — name-based or
content-based — has at least two members, every member is a collected
non-test file, and the members share the detection key: the stripped base
name for `name` groups, the content fingerprint for `content` groups. -/
theorem C10_duplicate_groups (files : List AnalyzerFile) (g : DuplicateGroup)
    (hg : g ∈ detect_duplicates files) :
    2 ≤ g.files.length ∧
    (∀ p ∈ g.files, ∃ f ∈ files, f.relative_path = p ∧ f.is_test_file = false) ∧
    ((g.similarity_type = "name" ∧
        ∃ nm, ∀ p ∈ g.files, stripTestSuffix (pathStem p) = nm) ∨
      (g.similarity_type = "content" ∧
        ∃ hsh, ∀ p ∈ g.files, ∃ f ∈ files,
          f.relative_path = p ∧ f.content_hash = hsh ∧
          f.is_test_file = false)) := by
  rcases (mem_detect_duplicates files g).1 hg with ⟨kv, hkv, hgf⟩ | ⟨kv, hkv, hgf⟩
  · obtain ⟨hty, hlen, hmem⟩ := nameGroupFor_spec files kv g hgf
    refine ⟨hlen, fun p hp => (hmem p hp).2, Or.inl ⟨hty, kv.1, fun p hp => ?_⟩⟩
    exact by_name_groups_inv files kv hkv p (hmem p hp).1
  · obtain ⟨hty, hlen, hfs⟩ := hashGroupFor_spec kv g hgf
    have hinv := by_hash_groups_inv files kv hkv
    refine ⟨hlen, fun p hp => ?_, Or.inr ⟨hty, kv.1, fun p hp => ?_⟩⟩
    · obtain ⟨f, hf, hfp, _, hft⟩ := hinv p (by rw [← hfs]; exact hp)
      exact ⟨f, hf, hfp, hft⟩
    · exact hinv p (by rw [← hfs]; exact hp)

/-- Witness for `C10_duplicate_groups`: the group that `dupFiles`
produces (two non-test `util` files; the test file `tests/util.test.ts`
shares the stripped base name but is filtered out). -/
theorem C10_duplicate_groups_witness :
    2 ≤ dupGroupW.files.length ∧
    (∀ p ∈ dupGroupW.files, ∃ f ∈ dupFiles,
      f.relative_path = p ∧ f.is_test_file = false) ∧
    ((dupGroupW.similarity_type = "name" ∧
        ∃ nm, ∀ p ∈ dupGroupW.files, stripTestSuffix (pathStem p) = nm) ∨
      (dupGroupW.similarity_type = "content" ∧
        ∃ hsh, ∀ p ∈ dupGroupW.files, ∃ f ∈ dupFiles,
          f.relative_path = p ∧ f.content_hash = hsh ∧
          f.is_test_file = false)) :=
  C10_duplicate_groups dupFiles dupGroupW (by decide)
